import Mathlib

/-!
Verification of the adaptive rate-limited request layer of the
steam-skins-scraper repository.

The embedding translates `src/core/rate_limiter.py` (class `RateLimiter`)
and `src/scrapers/steam.py` (class `SteamAPIMarket`, methods
`_make_request_with_rate_limit` and `get_list_items`) into pure Lean
functions.  Wall-clock time (`time.time()`) becomes an explicit rational
parameter `now`; each call to `time.sleep(d)` advances `now` by `d`;
calls to `random.uniform` become explicit draw parameters, constrained by
hypotheses to the interval the source draws from.
-/

namespace SteamScraper

/-- Record type `RequestRecord` from `src/core/rate_limiter.py`: a timestamped request
outcome with optional response time and status code. -/
structure RequestRecord where
  timestamp : ℚ
  success : Bool := true
  response_time : Option ℚ := none
  status_code : Option ℤ := none
deriving Repr, DecidableEq

/-- The mutable state of class `RateLimiter` (`src/core/rate_limiter.py`,
`__init__`): configuration fields plus the sliding window of records,
the consecutive-failure counter, the user-agent rotation index, the
degraded-service flag and the time of the last 429 response. -/
structure RateLimiter where
  max_requests : ℕ
  window_seconds : ℚ
  max_retries : ℕ
  backoff_base : ℚ
  jitter_percentage : ℚ
  requests : List RequestRecord
  consecutive_failures : ℕ
  current_user_agent_index : ℕ
  degraded_service : Bool
  last_429_time : Option ℚ
deriving Repr, DecidableEq

/-- Method `RateLimiter._clean_old_requests`: drop every record whose timestamp is
not strictly greater than `now - window_seconds`. -/
def clean_old_requests (rl : RateLimiter) (now : ℚ) : RateLimiter :=
  { rl with requests :=
      rl.requests.filter (fun req => decide (now - rl.window_seconds < req.timestamp)) }

/-- Method `RateLimiter._calculate_backoff`: `backoff_base * 2^(attempt-1)` plus a
jitter drawn uniformly from `[0, jitter_percentage * delay]` (modelled as
`u * (jitter_percentage * delay)` with a unit draw `u ∈ [0,1]`), doubled when
a 429 was recorded within the last 300 seconds (Python truthiness: a recorded
time of `0.0` counts as unset), clamped to 900 seconds. -/
def calculate_backoff (rl : RateLimiter) (attempt : ℕ) (u : ℚ) (now : ℚ) : ℚ :=
  let exponential_delay := rl.backoff_base * 2 ^ (attempt - 1)
  let jitter := u * (rl.jitter_percentage * exponential_delay)
  let backoff_time := exponential_delay + jitter
  let backoff_time :=
    match rl.last_429_time with
    | some t => if t ≠ 0 ∧ now - t < 300 then backoff_time * 2 else backoff_time
    | none => backoff_time
  min backoff_time 900

/-- Method `RateLimiter._add_jitter_to_wait`: `base_wait + v * base_wait` where `v`
is drawn uniformly from `[-jitter_percentage, jitter_percentage]`, floored at
1 second. -/
def add_jitter_to_wait (base_wait : ℚ) (v : ℚ) : ℚ :=
  max (base_wait + v * base_wait) 1

/-- Method `RateLimiter.can_make_request`: prune, then admit iff the window holds
fewer than `max_requests` records.  The pruned state is returned alongside
the boolean because the Python method mutates `self`. -/
def can_make_request (rl : RateLimiter) (now : ℚ) : Bool × RateLimiter :=
  let rl := clean_old_requests rl now
  (decide (rl.requests.length < rl.max_requests), rl)

/-- Timestamp of `min(self.requests, key=lambda x: x.timestamp)`; `0` for an
empty list (unreachable in the source, which only takes the minimum of a
window known to be non-empty). -/
def oldest_timestamp : List RequestRecord → ℚ
  | [] => 0
  | r :: rs => rs.foldl (fun acc x => min acc x.timestamp) r.timestamp

/-- Method `RateLimiter.wait_if_needed`: prune; when the window is full, compute the
time until the oldest record leaves the window, jitter it (draw `v`), raise
it to `calculate_backoff consecutive_failures` (draw `u`) when there are
consecutive failures, set the degraded flag at 3 or more consecutive
failures, sleep once for the resulting wait and prune again.  Returns the
new state and the elapsed (slept) time. -/
def wait_if_needed (rl : RateLimiter) (now : ℚ) (v : ℚ) (u : ℚ) :
    RateLimiter × ℚ :=
  let rl1 := clean_old_requests rl now
  if rl1.max_requests ≤ rl1.requests.length then
    let wait0 := oldest_timestamp rl1.requests + rl1.window_seconds - now
    let wait1 := add_jitter_to_wait wait0 v
    let wait2 :=
      if 0 < rl1.consecutive_failures then
        max wait1 (calculate_backoff rl1 rl1.consecutive_failures u now)
      else wait1
    let rl2 :=
      if 3 ≤ rl1.consecutive_failures then
        { rl1 with degraded_service := true }
      else rl1
    if 0 < wait2 then (clean_old_requests rl2 (now + wait2), wait2)
    else (rl2, 0)
  else (rl1, 0)

/-- Method `RateLimiter.record_request`: append a record stamped `now`; on success
reset `consecutive_failures` and clear the degraded flag; on failure
increment `consecutive_failures` and, for status 429, set `last_429_time`. -/
def record_request (rl : RateLimiter) (now : ℚ) (success : Bool)
    (response_time : Option ℚ) (status_code : Option ℤ) : RateLimiter :=
  let record : RequestRecord :=
    { timestamp := now, success := success,
      response_time := response_time, status_code := status_code }
  let rl := { rl with requests := rl.requests ++ [record] }
  if success then
    { rl with consecutive_failures := 0, degraded_service := false }
  else
    let rl := { rl with consecutive_failures := rl.consecutive_failures + 1 }
    if status_code = some 429 then { rl with last_429_time := some now } else rl

/-- Method `RateLimiter.should_retry`. -/
def should_retry (rl : RateLimiter) (attempt : ℕ) : Bool :=
  decide (attempt < rl.max_retries)

/-- Method `RateLimiter.get_next_user_agent`: advance the rotation index modulo the
pool size and return the user agent at the new index (the pool
`config.user_agents` is passed explicitly). -/
def get_next_user_agent (ua : List String) (rl : RateLimiter) :
    String × RateLimiter :=
  let idx := (rl.current_user_agent_index + 1) % ua.length
  (ua.getD idx "", { rl with current_user_agent_index := idx })

/-- The outcome of one HTTP attempt as seen by
`SteamAPIMarket._make_request_with_rate_limit`: either an HTTP response with
a status code after `elapsed` seconds, or a `requests.exceptions.RequestException`
(timeout / connection error) raised after `elapsed` seconds. -/
inductive HttpOutcome where
  | status (code : ℤ) (elapsed : ℚ)
  | network_failure (elapsed : ℚ)
deriving Repr, DecidableEq

/-- The arguments of one `record_request` call, traced so that theorems can
speak about the sequence of ledger records a run creates (the window itself
prunes old entries, so it does not retain the full history). -/
structure RecordCall where
  success : Bool
  response_time : Option ℚ
  status_code : Option ℤ
deriving Repr, DecidableEq

/-- Result of `_make_request_with_rate_limit`: the returned response
(`some i` when the response of attempt `i` — necessarily a 200 — was
returned, `none` for the `return None` paths), the final rate limiter state,
the final time, and the trace of `record_request` calls in order. -/
structure ExecResult where
  response : Option ℕ
  rl : RateLimiter
  now : ℚ
  trace : List RecordCall
deriving Repr, DecidableEq

/-- The `while attempt <= self.rate_limiter.max_retries` loop of
`SteamAPIMarket._make_request_with_rate_limit`, as recursion on
`fuel = max_retries + 1 - attempt` (the loop guard holds iff `fuel > 0`).
Each iteration: `wait_if_needed` (draws `jv`, `ju`), header refresh via
`get_next_user_agent`, one HTTP attempt (`transport attempt`), then
classification exactly as in the source: 200 → record success and return;
429 and 500/502/503/504 → record failure and fall through; any other status
→ record failure and return `None`; a request exception → record failure
with no status and fall through.  Falling through increments `attempt` and,
when the loop will run again, sleeps `calculate_backoff attempt` (draw `bs`). -/
def exec_go (transport : ℕ → HttpOutcome) (ua : List String)
    (jv ju bs : ℕ → ℚ) : ℕ → ℕ → RateLimiter → ℚ → ExecResult
  | 0, _, rl, now => ⟨none, rl, now, []⟩
  | fuel + 1, attempt, rl, now =>
    let p := wait_if_needed rl now (jv attempt) (ju attempt)
    let rl := p.1
    let now := now + p.2
    let rl := (get_next_user_agent ua rl).2
    match transport attempt with
    | .status code rt =>
      let now := now + rt
      if code = 200 then
        let rl := record_request rl now true (some rt) (some 200)
        ⟨some attempt, rl, now, [⟨true, some rt, some 200⟩]⟩
      else if code = 429 ∨ code = 500 ∨ code = 502 ∨ code = 503 ∨ code = 504 then
        let rl := record_request rl now false (some rt) (some code)
        let attempt' := attempt + 1
        let now := if attempt' ≤ rl.max_retries
          then now + calculate_backoff rl attempt' (bs attempt) now else now
        let r := exec_go transport ua jv ju bs fuel attempt' rl now
        ⟨r.response, r.rl, r.now, ⟨false, some rt, some code⟩ :: r.trace⟩
      else
        let rl := record_request rl now false (some rt) (some code)
        ⟨none, rl, now, [⟨false, some rt, some code⟩]⟩
    | .network_failure el =>
      let now := now + el
      let rl := record_request rl now false none none
      let attempt' := attempt + 1
      let now := if attempt' ≤ rl.max_retries
        then now + calculate_backoff rl attempt' (bs attempt) now else now
      let r := exec_go transport ua jv ju bs fuel attempt' rl now
      ⟨r.response, r.rl, r.now, ⟨false, none, none⟩ :: r.trace⟩

/-- Method `SteamAPIMarket._make_request_with_rate_limit`: run the retry loop from
`attempt = 0` with fuel `max_retries + 1`. -/
def make_request_with_rate_limit (transport : ℕ → HttpOutcome)
    (ua : List String) (jv ju bs : ℕ → ℚ) (rl : RateLimiter) (now : ℚ) :
    ExecResult :=
  exec_go transport ua jv ju bs (rl.max_retries + 1) 0 rl now

/-- An outcome the executor's classification falls through to retry on:
status 429, a 500/502/503/504 server error, or a network-level failure. -/
def transientOutcome : HttpOutcome → Bool
  | .status code _ =>
    decide (code = 429 ∨ code = 500 ∨ code = 502 ∨ code = 503 ∨ code = 504)
  | .network_failure _ => true

/-- An outcome the executor treats as terminal: an HTTP status that is
neither 200 nor one of the retryable classes. -/
def terminalOutcome : HttpOutcome → Bool
  | .status code _ =>
    decide (¬(code = 200 ∨ code = 429 ∨ code = 500 ∨ code = 502 ∨
              code = 503 ∨ code = 504))
  | .network_failure _ => false

/-- Trace of a crawl run of `SteamAPIMarket.get_list_items`: the accumulated
items (the source's actual return value), the offsets at which page requests
were issued in order, and whether the loop ended by exhaustion / an empty
page (`done = true`) rather than by a failed page fetch (`done = false`). -/
structure CrawlTrace (α : Type) where
  items : List α
  offsets : List ℕ
  done : Bool
deriving Repr, DecidableEq

/-- The `while current_start < total_items` loop of
`SteamAPIMarket.get_list_items`, as fuel recursion (offsets advance by
`count ≥ 1` each iteration, so fuel `total_items + 1` always suffices).
`page o` is the decoded result list of `_make_request_with_rate_limit` at
offset `o`: `none` when the request returned no response or the body failed
to decode (both `break` identically in the source), `some results`
otherwise.  An empty result list breaks the loop; a non-empty one is
appended and the offset advances by `count`. -/
def crawl_go {α : Type} (page : ℕ → Option (List α)) (total count : ℕ) :
    ℕ → ℕ → List α → CrawlTrace α
  | 0, _, acc => ⟨acc, [], false⟩
  | fuel + 1, current, acc =>
    if current < total then
      match page current with
      | none => ⟨acc, [current], false⟩
      | some [] => ⟨acc, [current], true⟩
      | some (r :: rs) =>
        let t := crawl_go page total count fuel (current + count) (acc ++ r :: rs)
        ⟨t.items, current :: t.offsets, t.done⟩
    else ⟨acc, [], true⟩

/-- Method `SteamAPIMarket.get_list_items` with the probe result `total_items`
(`get_max_items()`) and the configured batch size `count` as parameters:
when the probe yields 0 the method returns `[]` at once; otherwise it runs
the paging loop from `start` with an empty accumulator.  The source returns
only `.items`; `.offsets` and `.done` are trace instrumentation. -/
def get_list_items {α : Type} (page : ℕ → Option (List α))
    (total_items count start : ℕ) : CrawlTrace α :=
  if total_items = 0 then ⟨[], [], false⟩
  else crawl_go page total_items count (total_items + 1) start []

/-- The list a caller of `get_list_items` actually receives. -/
def get_list_items_result {α : Type} (page : ℕ → Option (List α))
    (total_items count start : ℕ) : List α :=
  (get_list_items page total_items count start).items

/-- Replay a list of `record_request` calls (each with its call time and
arguments) against a ledger state. -/
def run_records (rl : RateLimiter) : List (ℚ × RecordCall) → RateLimiter
  | [] => rl
  | e :: es =>
    run_records (record_request rl e.1 e.2.success e.2.response_time e.2.status_code) es

/-- Length of the trailing run of `false` flags — the number of failures
recorded since the most recent success (spec-side notion for C2). -/
def trailing_failure_run (flags : List Bool) : ℕ :=
  (flags.reverse.takeWhile (fun s => !s)).length

theorem record_request_consecutive_failures (rl : RateLimiter) (now : ℚ)
    (s : Bool) (rt : Option ℚ) (sc : Option ℤ) :
    (record_request rl now s rt sc).consecutive_failures =
      if s then 0 else rl.consecutive_failures + 1 := by
  cases s <;> simp only [record_request, if_true, if_false, Bool.false_eq_true] <;>
    split <;> rfl

theorem run_records_foldl (evs : List (ℚ × RecordCall)) (rl : RateLimiter) :
    (run_records rl evs).consecutive_failures =
      evs.foldl (fun acc e => if e.2.success then 0 else acc + 1)
        rl.consecutive_failures := by
  induction evs generalizing rl with
  | nil => rfl
  | cons e es ih =>
    simp only [run_records, List.foldl_cons, ih, record_request_consecutive_failures]

theorem foldl_step_trailing (flags : List Bool) :
    flags.foldl (fun acc s => if s then 0 else acc + 1) 0 =
      trailing_failure_run flags := by
  induction flags using List.reverseRecOn with
  | nil => rfl
  | append_singleton fs s ih =>
    cases s <;>
      simp [trailing_failure_run, List.foldl_append, List.takeWhile, ih]

theorem clean_old_requests_cf (rl : RateLimiter) (t : ℚ) :
    (clean_old_requests rl t).consecutive_failures = rl.consecutive_failures := rfl

/-- Claim C2: after any sequence of `record_request` calls starting from a
fresh counter, `consecutive_failures` equals the length of the trailing run
of failed records since the most recent successful one (a success resets it
to 0, a failure increments it by 1), and no other ledger operation —
pruning, the admission check, the rate gate, user-agent rotation — changes
it. -/
theorem consecutive_failures_eq_trailing_run
    (rl : RateLimiter) (evs : List (ℚ × RecordCall))
    (h0 : rl.consecutive_failures = 0) :
    ((run_records rl evs).consecutive_failures =
      trailing_failure_run (evs.map (fun e => e.2.success)))
    ∧ (∀ t, (clean_old_requests rl t).consecutive_failures = rl.consecutive_failures)
    ∧ (∀ t, (can_make_request rl t).2.consecutive_failures = rl.consecutive_failures)
    ∧ (∀ t v u, (wait_if_needed rl t v u).1.consecutive_failures = rl.consecutive_failures)
    ∧ (∀ ua, (get_next_user_agent ua rl).2.consecutive_failures = rl.consecutive_failures) := by
  refine ⟨?_, fun t => rfl, fun t => rfl, fun t v u => ?_, fun ua => rfl⟩
  · rw [run_records_foldl, h0, ← foldl_step_trailing (evs.map fun e => e.2.success),
      List.foldl_map]
  · simp only [wait_if_needed]
    repeat' split
    all_goals rfl

/-- A rate limiter in its `__init__` state with the repository's default
configuration (`max_requests = 1`, `window = 20`, `max_retries = 3`,
`backoff_base = 30`, `jitter_percentage = 0.3`). -/
def rlInit : RateLimiter :=
  { max_requests := 1, window_seconds := 20, max_retries := 3,
    backoff_base := 30, jitter_percentage := 3 / 10, requests := [],
    consecutive_failures := 0, current_user_agent_index := 0,
    degraded_service := false, last_429_time := none }

/-- Concrete outcome sequence: fail 503, succeed, fail (network), fail 429. -/
def evsC2 : List (ℚ × RecordCall) :=
  [(0, ⟨false, none, some 503⟩), (1, ⟨true, some (1/2), some 200⟩),
   (2, ⟨false, none, none⟩), (3, ⟨false, none, some 429⟩)]

theorem consecutive_failures_eq_trailing_run_witness :
    (run_records rlInit evsC2).consecutive_failures = 2 := by
  have h := (consecutive_failures_eq_trailing_run rlInit evsC2 rfl).1
  rw [h]; decide

/-- Claim C4: `can_make_request` first prunes so the window holds only records
with timestamp strictly greater than `now - window_seconds`, and returns
`false` iff the number of non-expired records is at least `max_requests`;
a record whose timestamp plus the window duration lies in the past is no
longer counted. -/
theorem can_make_request_window_semantics (rl : RateLimiter) (now : ℚ) :
    (∀ r ∈ (clean_old_requests rl now).requests,
        now - rl.window_seconds < r.timestamp)
    ∧ ((can_make_request rl now).1 = false ↔
        rl.max_requests ≤
          rl.requests.countP (fun r => decide (now - rl.window_seconds < r.timestamp)))
    ∧ (∀ r ∈ rl.requests, r.timestamp + rl.window_seconds < now →
        r ∉ (clean_old_requests rl now).requests) := by
  refine ⟨?_, ?_, ?_⟩
  · intro r hr
    have h := List.mem_filter.mp hr
    simpa using h.2
  · simp only [can_make_request, clean_old_requests, decide_eq_false_iff_not, not_lt,
      List.countP_eq_length_filter]
  · intro r hr hexp hmem
    have h := (List.mem_filter.mp hmem).2
    simp only [decide_eq_true_eq] at h
    linarith

/-- A ledger holding one record stamped `0`. -/
def rlC4 : RateLimiter := { rlInit with requests := [{ timestamp := 0 }] }

theorem can_make_request_window_semantics_witness :
    ({ timestamp := 0 } : RequestRecord) ∉ (clean_old_requests rlC4 30).requests :=
  (can_make_request_window_semantics rlC4 30).2.2 _ (by simp [rlC4, rlInit])
    (by norm_num [rlC4, rlInit])

/-- Claim C6: for any attempt `n ≥ 1`, any jitter draw in `[0,1]` of its range
and any ledger state, the computed backoff lies between `backoff_base` and
the 900-second cap, provided `backoff_base ≤ 900` (with nonnegative base and
jitter fraction, as configured). -/
theorem calculate_backoff_bounds (rl : RateLimiter) (attempt : ℕ) (u now : ℚ)
    (ha : 1 ≤ attempt) (hb0 : 0 ≤ rl.backoff_base) (hb9 : rl.backoff_base ≤ 900)
    (hu0 : 0 ≤ u) (hj : 0 ≤ rl.jitter_percentage) :
    rl.backoff_base ≤ calculate_backoff rl attempt u now
    ∧ calculate_backoff rl attempt u now ≤ 900 := by
  have hpow : (1:ℚ) ≤ 2 ^ (attempt - 1) := one_le_pow₀ (by norm_num)
  have hdelay : rl.backoff_base ≤ rl.backoff_base * 2 ^ (attempt - 1) := by
    nlinarith
  have hd0 : 0 ≤ rl.backoff_base * 2 ^ (attempt - 1) := le_trans hb0 hdelay
  have hjit : 0 ≤ u * (rl.jitter_percentage * (rl.backoff_base * 2 ^ (attempt - 1))) :=
    mul_nonneg hu0 (mul_nonneg hj hd0)
  have key : calculate_backoff rl attempt u now =
      min (rl.backoff_base * 2 ^ (attempt - 1) +
        u * (rl.jitter_percentage * (rl.backoff_base * 2 ^ (attempt - 1)))) 900
    ∨ calculate_backoff rl attempt u now =
      min ((rl.backoff_base * 2 ^ (attempt - 1) +
        u * (rl.jitter_percentage * (rl.backoff_base * 2 ^ (attempt - 1)))) * 2) 900 := by
    simp only [calculate_backoff]
    rcases h429 : rl.last_429_time with _ | t <;> simp only [h429]
    · exact Or.inl trivial
    · by_cases hc : t ≠ 0 ∧ now - t < 300
      · right; rw [if_pos hc]
      · left; rw [if_neg hc]
  rcases key with h | h <;> rw [h] <;>
    exact ⟨le_min (by linarith) hb9, min_le_right _ _⟩

theorem calculate_backoff_bounds_witness :
    rlInit.backoff_base ≤ calculate_backoff rlInit 1 0 0
    ∧ calculate_backoff rlInit 1 0 0 ≤ 900 :=
  calculate_backoff_bounds rlInit 1 0 0 (by norm_num) (by norm_num [rlInit])
    (by norm_num [rlInit]) (by norm_num) (by norm_num [rlInit])

/-- A ledger that recorded a 429 at time 200 (within 5 minutes of time 400). -/
def rl429 : RateLimiter :=
  { rlInit with consecutive_failures := 1, last_429_time := some 200 }

/-- The otherwise-identical ledger with `last_429_time` unset. -/
def rlNo429 : RateLimiter := { rl429 with last_429_time := none }

/-- Claim C7, counterexample: at attempt 6 with the repository's default
`backoff_base = 30`, the un-doubled backoff `30 * 2^5 = 960` already exceeds
the 900-second clamp, so the computation with a recent 429 and the one with
`last_429_time` unset both return exactly 900 — not strictly larger. -/
theorem calculate_backoff_429_clamp_counterexample :
    calculate_backoff rl429 6 0 400 = 900
    ∧ calculate_backoff rlNo429 6 0 400 = 900
    ∧ ¬ calculate_backoff rlNo429 6 0 400 < calculate_backoff rl429 6 0 400 := by
  have h1 : calculate_backoff rl429 6 0 400 = 900 := by
    simp only [calculate_backoff, rl429, rlInit]
    norm_num [min_def]
  have h2 : calculate_backoff rlNo429 6 0 400 = 900 := by
    simp only [calculate_backoff, rlNo429, rl429, rlInit]
    norm_num [min_def]
  exact ⟨h1, h2, by rw [h1, h2]; exact lt_irrefl 900⟩

/-- Claim C7, amended: for any attempt and fixed jitter draw, if a 429 was
recorded less than 5 minutes before the computation (at a nonzero time, per
Python truthiness) and the pre-doubling backoff `delay + jitter` lies
strictly below the 900-second cap, then the computation yields a strictly
larger wait than the otherwise-identical one with `last_429_time` unset;
once the pre-doubling value reaches the cap both computations return 900. -/
theorem calculate_backoff_429_strictly_larger (rl : RateLimiter) (attempt : ℕ)
    (u now t : ℚ) (h429 : rl.last_429_time = some t) (ht0 : t ≠ 0)
    (hrec : now - t < 300) (hu0 : 0 ≤ u) (hj : 0 ≤ rl.jitter_percentage)
    (hb : 0 < rl.backoff_base)
    (hlt : rl.backoff_base * 2 ^ (attempt - 1) +
        u * (rl.jitter_percentage * (rl.backoff_base * 2 ^ (attempt - 1))) < 900) :
    calculate_backoff { rl with last_429_time := none } attempt u now <
      calculate_backoff rl attempt u now := by
  have hd : 0 < rl.backoff_base * 2 ^ (attempt - 1) :=
    mul_pos hb (pow_pos (by norm_num) _)
  have hjit : 0 ≤ u * (rl.jitter_percentage * (rl.backoff_base * 2 ^ (attempt - 1))) :=
    mul_nonneg hu0 (mul_nonneg hj hd.le)
  simp only [calculate_backoff, h429]
  rw [if_pos ⟨ht0, hrec⟩]
  rw [min_eq_left hlt.le]
  exact lt_min (by linarith) hlt

theorem calculate_backoff_429_strictly_larger_witness :
    calculate_backoff { rl429 with last_429_time := none } 1 0 400 <
      calculate_backoff rl429 1 0 400 :=
  calculate_backoff_429_strictly_larger rl429 1 0 400 200 rfl (by norm_num)
    (by norm_num) (by norm_num) (by norm_num [rl429, rlInit])
    (by norm_num [rl429, rlInit]) (by norm_num [rl429, rlInit])

/-- Iterate `get_next_user_agent` `k` times (only the mutated state). -/
def rotate_iter (ua : List String) (rl : RateLimiter) : ℕ → RateLimiter
  | 0 => rl
  | k + 1 => (get_next_user_agent ua (rotate_iter ua rl k)).2

/-- The string returned by the `k`-th call (`k ≥ 1`) to
`get_next_user_agent`. -/
def kth_user_agent (ua : List String) (rl : RateLimiter) (k : ℕ) : String :=
  (get_next_user_agent ua (rotate_iter ua rl (k - 1))).1

theorem rotate_iter_index (ua : List String) (rl : RateLimiter) (k : ℕ)
    (h0 : rl.current_user_agent_index = 0) :
    (rotate_iter ua rl k).current_user_agent_index = k % ua.length := by
  induction k with
  | zero =>
    simp only [rotate_iter, h0]
    exact (Nat.zero_mod _).symm
  | succ k ih =>
    simp only [rotate_iter, get_next_user_agent, ih]
    rw [Nat.mod_add_mod]

/-- Claim C10: starting from rotation index 0 over a pool of `n ≥ 1` user
agents, the `k`-th call (`k ≥ 1`) to `get_next_user_agent` returns
`user_agents[k % n]` and leaves the rotation index at `k % n`, which lies in
`[0, n)`. -/
theorem kth_user_agent_rotation (ua : List String) (rl : RateLimiter) (k : ℕ)
    (h0 : rl.current_user_agent_index = 0) (hua : ua ≠ []) (hk : 1 ≤ k) :
    kth_user_agent ua rl k = ua.getD (k % ua.length) ""
    ∧ (rotate_iter ua rl k).current_user_agent_index = k % ua.length
    ∧ k % ua.length < ua.length := by
  have hlen : 0 < ua.length := List.length_pos.mpr hua
  refine ⟨?_, rotate_iter_index ua rl k h0, Nat.mod_lt _ hlen⟩
  unfold kth_user_agent
  simp only [get_next_user_agent, rotate_iter_index ua rl (k - 1) h0]
  rw [Nat.mod_add_mod]
  have hk1 : k - 1 + 1 = k := by omega
  rw [hk1]

theorem kth_user_agent_rotation_witness :
    kth_user_agent ["agentA", "agentB", "agentC"] rlInit 1 = "agentB" := by
  have h := (kth_user_agent_rotation ["agentA", "agentB", "agentC"] rlInit 1 rfl
    (by decide) (by decide)).1
  simpa using h

theorem foldl_min_le_init (l : List RequestRecord) (a : ℚ) :
    l.foldl (fun acc x => min acc x.timestamp) a ≤ a := by
  induction l generalizing a with
  | nil => simp
  | cons x xs ih =>
    simp only [List.foldl_cons]
    exact le_trans (ih _) (min_le_left _ _)

theorem foldl_min_le_mem (l : List RequestRecord) (a : ℚ) (r : RequestRecord)
    (hr : r ∈ l) : l.foldl (fun acc x => min acc x.timestamp) a ≤ r.timestamp := by
  induction l generalizing a with
  | nil => cases hr
  | cons x xs ih =>
    simp only [List.foldl_cons]
    rcases List.mem_cons.mp hr with h | h
    · subst h
      exact le_trans (foldl_min_le_init xs _) (min_le_right _ _)
    · exact ih _ h

theorem foldl_min_attained (l : List RequestRecord) (a : ℚ) :
    l.foldl (fun acc x => min acc x.timestamp) a = a ∨
      ∃ r ∈ l, l.foldl (fun acc x => min acc x.timestamp) a = r.timestamp := by
  induction l generalizing a with
  | nil => exact Or.inl rfl
  | cons x xs ih =>
    simp only [List.foldl_cons]
    rcases ih (min a x.timestamp) with h | ⟨r, hr, h⟩
    · rcases le_total a x.timestamp with hle | hle
      · left; rw [h, min_eq_left hle]
      · right
        exact ⟨x, List.mem_cons_self _ _, by rw [h, min_eq_right hle]⟩
    · right; exact ⟨r, List.mem_cons_of_mem _ hr, h⟩

theorem oldest_timestamp_mem (l : List RequestRecord) (hl : l ≠ []) :
    ∃ r ∈ l, r.timestamp = oldest_timestamp l := by
  cases l with
  | nil => exact absurd rfl hl
  | cons x xs =>
    simp only [oldest_timestamp]
    rcases foldl_min_attained xs x.timestamp with h | ⟨r, hr, h⟩
    · exact ⟨x, List.mem_cons_self _ _, h.symm⟩
    · exact ⟨r, List.mem_cons_of_mem _ hr, h.symm⟩

theorem length_filter_lt_of_mem (l : List RequestRecord)
    (p : RequestRecord → Bool) (r : RequestRecord) (hr : r ∈ l)
    (hp : p r = false) : (l.filter p).length < l.length := by
  induction l with
  | nil => cases hr
  | cons x xs ih =>
    rcases List.mem_cons.mp hr with h | h
    · subst h
      simp only [List.filter_cons, hp, Bool.false_eq_true, if_false, List.length_cons]
      exact Nat.lt_succ_of_le (List.length_filter_le p xs)
    · by_cases hx : p x = true
      · simp only [List.filter_cons, hx, if_true, List.length_cons]
        exact Nat.succ_lt_succ (ih h)
      · simp only [List.filter_cons, hx, if_false, List.length_cons]
        exact Nat.lt_succ_of_lt (ih h)

/-- After one pruning pass at time `t`, a second admission check at the same
time `t` succeeds as soon as the pruned window is strictly smaller than
`max_requests`. -/
theorem can_make_request_after_clean (X : RateLimiter) (t : ℚ)
    (h : (X.requests.filter
        (fun r => decide (t - X.window_seconds < r.timestamp))).length <
      X.max_requests) :
    (can_make_request (clean_old_requests X t) t).1 = true := by
  simp only [can_make_request, clean_old_requests, List.filter_filter,
    Bool.and_self, decide_eq_true_eq]
  exact h

/-- The substantive part of the amended C3: one slept wait of at least the
time to the oldest record's expiry removes that record, so when the window
held exactly `max_requests` records the single wait restores admission. -/
theorem single_wait_restores_admission (L : RateLimiter) (now w2 : ℚ)
    (RL2 : RateLimiter) (hreq : RL2.requests = L.requests)
    (hwin : RL2.window_seconds = L.window_seconds)
    (hmaxf : RL2.max_requests = L.max_requests)
    (hlen : L.requests.length = L.max_requests) (hpos : 0 < L.max_requests)
    (hw : oldest_timestamp L.requests + L.window_seconds - now ≤ w2) :
    (can_make_request (clean_old_requests RL2 (now + w2)) (now + w2)).1 = true := by
  have hne : L.requests ≠ [] := by
    intro h
    rw [h] at hlen
    simp only [List.length_nil] at hlen
    omega
  obtain ⟨r0, hr0, hts⟩ := oldest_timestamp_mem L.requests hne
  apply can_make_request_after_clean
  rw [hreq, hwin, hmaxf, ← hlen]
  apply length_filter_lt_of_mem _ _ r0 hr0
  rw [decide_eq_false_iff_not, not_lt, hts]
  linarith

/-- A ledger whose single record (stamped 0) fills the window
(`max_requests = 1`). -/
def rlC3 : RateLimiter :=
  { rlInit with requests := [{ timestamp := 0, status_code := some 200 }] }

/-- Claim C3, counterexample: with one record stamped 0 filling the window
(window 20s), a negative jitter draw of −0.3 makes `wait_if_needed` sleep
only 14 seconds and return; at the return time the record (age 14 < 20) is
still in the window, so the ledger does not admit — `wait_if_needed`
returned without re-checking admission, which the claim says cannot
happen. -/
theorem wait_if_needed_no_recheck_counterexample :
    (can_make_request (wait_if_needed rlC3 0 (-(3/10)) 0).1
        (0 + (wait_if_needed rlC3 0 (-(3/10)) 0).2)).1 = false := by
  have hw : wait_if_needed rlC3 0 (-(3/10)) 0 =
      (clean_old_requests rlC3 14, 14) := by
    simp only [wait_if_needed, rlC3, rlInit, clean_old_requests, oldest_timestamp,
      add_jitter_to_wait, calculate_backoff]
    norm_num [List.filter, max_def]
  rw [hw]
  simp only [can_make_request, clean_old_requests, rlC3, rlInit]
  norm_num [List.filter]

/-- When the pruned window is full, `wait_if_needed` performs exactly one
wait: it returns the re-pruned state and a slept time `w2` that is at least
1 second, at least the jittered time to the oldest record's expiry (for a
nonnegative jitter draw), and at least the backoff when there are
consecutive failures. -/
theorem wait_if_needed_full_spec (rl : RateLimiter) (now v u : ℚ) (hv : 0 ≤ v)
    (hfull : (clean_old_requests rl now).max_requests ≤
      (clean_old_requests rl now).requests.length) :
    ∃ w2 RL2,
      wait_if_needed rl now v u = (clean_old_requests RL2 (now + w2), w2)
      ∧ 1 ≤ w2
      ∧ oldest_timestamp (clean_old_requests rl now).requests +
          (clean_old_requests rl now).window_seconds - now ≤ w2
      ∧ RL2.requests = (clean_old_requests rl now).requests
      ∧ RL2.window_seconds = (clean_old_requests rl now).window_seconds
      ∧ RL2.max_requests = (clean_old_requests rl now).max_requests := by
  simp only [wait_if_needed]
  rw [if_pos hfull]
  set L := clean_old_requests rl now with hLdef
  set w0 := oldest_timestamp L.requests + L.window_seconds - now with hw0def
  set w1 := add_jitter_to_wait w0 v with hw1def
  have h1le : (1:ℚ) ≤ w1 := by
    rw [hw1def]
    unfold add_jitter_to_wait
    exact le_max_right _ _
  have hw0le : w0 ≤ w1 := by
    rw [hw1def]
    unfold add_jitter_to_wait
    rcases le_or_lt 0 w0 with h | h
    · exact le_trans (by nlinarith) (le_max_left _ _)
    · exact le_trans (by linarith) (le_max_right _ _)
  by_cases hcf : 0 < L.consecutive_failures
  · rw [if_pos hcf]
    have hw1le : w1 ≤ max w1 (calculate_backoff L L.consecutive_failures u now) :=
      le_max_left _ _
    have hpos2 : 0 < max w1 (calculate_backoff L L.consecutive_failures u now) := by
      linarith
    rw [if_pos hpos2]
    refine ⟨_, _, rfl, by linarith, by linarith, ?_, ?_, ?_⟩ <;> split <;> rfl
  · rw [if_neg hcf]
    have hpos2 : 0 < w1 := by linarith
    rw [if_pos hpos2]
    refine ⟨_, _, rfl, h1le, hw0le, ?_, ?_, ?_⟩ <;> split <;> rfl

/-- Claim C3, amended: `wait_if_needed` is a single-wait (not a looping) gate:
when the window is full it computes the time until the oldest record
expires, applies jitter, raises the wait to the backoff when
`consecutive_failures > 0`, suspends once for the resulting (≥ 1 second)
wait, prunes, and returns without re-checking admission — so it never drops
or rejects a request, and with a nonnegative jitter draw and a window
holding exactly `max_requests` records the single wait suffices for the
ledger to admit at the time it returns. -/
theorem wait_if_needed_single_wait (rl : RateLimiter) (now v u : ℚ)
    (hv : 0 ≤ v)
    (hfull : (clean_old_requests rl now).requests.length = rl.max_requests)
    (hpos : 0 < rl.max_requests) :
    1 ≤ (wait_if_needed rl now v u).2
    ∧ (can_make_request (wait_if_needed rl now v u).1
        (now + (wait_if_needed rl now v u).2)).1 = true := by
  have hmaxeq : (clean_old_requests rl now).max_requests = rl.max_requests := rfl
  obtain ⟨w2, RL2, heq, h1, hw0, hreq, hwin, hmaxf⟩ :=
    wait_if_needed_full_spec rl now v u hv (by rw [hmaxeq, hfull])
  rw [heq]
  refine ⟨h1, ?_⟩
  apply single_wait_restores_admission (clean_old_requests rl now) now w2 RL2
      hreq hwin (by rw [hmaxf, hmaxeq]) (by rw [hmaxeq, hfull]) ?_ hw0
  rw [hmaxeq]
  exact hpos

/-- A ledger whose single record (stamped 0) fills the window, with one
consecutive failure outstanding. -/
def rlC3b : RateLimiter :=
  { rlC3 with consecutive_failures := 1 }

theorem wait_if_needed_single_wait_witness :
    1 ≤ (wait_if_needed rlC3b 0 0 0).2
    ∧ (can_make_request (wait_if_needed rlC3b 0 0 0).1
        (0 + (wait_if_needed rlC3b 0 0 0).2)).1 = true :=
  wait_if_needed_single_wait rlC3b 0 0 0 le_rfl
    (by norm_num [clean_old_requests, rlC3b, rlC3, rlInit, List.filter])
    (by norm_num [rlC3b, rlC3, rlInit])

theorem crawl_go_offsets_get {α : Type} (page : ℕ → Option (List α))
    (total count : ℕ) (hc : 0 < count) :
    ∀ (fuel current : ℕ) (acc : List α), total - current < fuel →
      ∀ (i o : ℕ),
        (crawl_go page total count fuel current acc).offsets.get? i = some o →
        o = current + i * count := by
  intro fuel
  induction fuel with
  | zero => intro current acc hf; omega
  | succ fuel ih =>
    intro current acc hf i o h
    simp only [crawl_go] at h
    by_cases hlt : current < total
    · rw [if_pos hlt] at h
      cases hp : page current with
      | none =>
        simp only [hp] at h
        cases i with
        | zero => simp at h; omega
        | succ i => simp at h
      | some l =>
        cases l with
        | nil =>
          simp only [hp] at h
          cases i with
          | zero => simp at h; omega
          | succ i => simp at h
        | cons r rs =>
          simp only [hp] at h
          cases i with
          | zero => simp at h; omega
          | succ i =>
            simp only [List.get?_cons_succ] at h
            have := ih (current + count) (acc ++ r :: rs) (by omega) i o h
            rw [this, Nat.succ_mul]
            omega
    · rw [if_neg hlt] at h
      simp at h

theorem crawl_go_offsets_lt {α : Type} (page : ℕ → Option (List α))
    (total count : ℕ) :
    ∀ (fuel current : ℕ) (acc : List α),
      ∀ o ∈ (crawl_go page total count fuel current acc).offsets, o < total := by
  intro fuel
  induction fuel with
  | zero => intro current acc o ho; simp [crawl_go] at ho
  | succ fuel ih =>
    intro current acc o ho
    simp only [crawl_go] at ho
    by_cases hlt : current < total
    · rw [if_pos hlt] at ho
      cases hp : page current with
      | none => simp only [hp] at ho; simp at ho; omega
      | some l =>
        cases l with
        | nil => simp only [hp] at ho; simp at ho; omega
        | cons r rs =>
          simp only [hp, List.mem_cons] at ho
          rcases ho with rfl | ho
          · exact hlt
          · exact ih (current + count) (acc ++ r :: rs) o ho
    · rw [if_neg hlt] at ho
      simp at ho

/-- The offset sequence §4.6 of the spec predicts for a crawl in which every
in-range page request succeeds with a non-empty result list: offsets from
`current` in steps of `count` while below `total` (spec-side definition,
compared against the source-derived `crawl_go`). -/
def expected_offsets (total count : ℕ) : ℕ → ℕ → List ℕ
  | 0, _ => []
  | fuel + 1, current =>
    if current < total then
      current :: expected_offsets total count fuel (current + count)
    else []

theorem crawl_go_offsets_all_good {α : Type} (page : ℕ → Option (List α))
    (total count : ℕ)
    (hgood : ∀ o, o < total → ∃ l, page o = some l ∧ l ≠ []) :
    ∀ (fuel current : ℕ) (acc : List α),
      (crawl_go page total count fuel current acc).offsets =
        expected_offsets total count fuel current := by
  intro fuel
  induction fuel with
  | zero => intro current acc; rfl
  | succ fuel ih =>
    intro current acc
    simp only [crawl_go, expected_offsets]
    by_cases hlt : current < total
    · rw [if_pos hlt, if_pos hlt]
      obtain ⟨l, hl, hne⟩ := hgood current hlt
      rcases l with _ | ⟨r, rs⟩
      · exact absurd rfl hne
      · simp only [hl]
        rw [ih]
    · rw [if_neg hlt, if_neg hlt]

/-- Claim C8: the crawl loop requests pages at the strictly increasing offsets
`start, start + count, start + 2·count, …` (so it never re-requests an
offset), every requested offset is strictly below the probed total, and in
the spec's concrete scenario (`total = 250`, `page_size = 100`, `start = 0`,
every page non-empty) the requests are exactly at offsets 0, 100, 200 with
no fourth request. -/
theorem get_list_items_offsets {α : Type} (page : ℕ → Option (List α))
    (total count start : ℕ) (hc : 0 < count) :
    (∀ i o, (get_list_items page total count start).offsets.get? i = some o →
        o = start + i * count)
    ∧ (get_list_items page total count start).offsets.Pairwise (· < ·)
    ∧ (∀ o ∈ (get_list_items page total count start).offsets, o < total)
    ∧ (∀ page2 : ℕ → Option (List α),
        (∀ o, o < 250 → ∃ l, page2 o = some l ∧ l ≠ []) →
        (get_list_items page2 250 100 0).offsets = [0, 100, 200]) := by
  have hchar : ∀ i o,
      (get_list_items page total count start).offsets.get? i = some o →
      o = start + i * count := by
    intro i o h
    unfold get_list_items at h
    split at h
    · simp at h
    · exact crawl_go_offsets_get page total count hc (total + 1) start [] (by omega) i o h
  refine ⟨hchar, ?_, ?_, ?_⟩
  · rw [List.pairwise_iff_get]
    intro i j hij
    have hi := hchar i _ (List.get?_eq_get i.isLt)
    have hj := hchar j _ (List.get?_eq_get j.isLt)
    simp only [Fin.eta] at hi hj
    rw [hi, hj]
    have hm : (i : ℕ) * count < (j : ℕ) * count :=
      mul_lt_mul_of_pos_right hij hc
    omega
  · intro o ho
    unfold get_list_items at ho
    split at ho
    · simp at ho
    · exact crawl_go_offsets_lt page total count (total + 1) start [] o ho
  · intro page2 hgood
    show (get_list_items page2 250 100 0).offsets = [0, 100, 200]
    unfold get_list_items
    rw [if_neg (by omega)]
    rw [crawl_go_offsets_all_good page2 250 100 hgood]
    decide

theorem get_list_items_offsets_witness :
    (get_list_items (fun o => some [o]) 250 100 0).offsets = [0, 100, 200] :=
  (get_list_items_offsets (fun o => some [o]) 250 100 0 (by decide)).2.2.2
    (fun o => some [o]) (fun o _ => ⟨[o], rfl, by simp⟩)

/-- Page oracle that always returns a singleton page. -/
def pageAll : ℕ → Option (List ℕ) := fun o => some [o]

/-- Page oracle that fails (no response) from offset 2 on. -/
def pageFailAt2 : ℕ → Option (List ℕ) := fun o => if o < 2 then some [o] else none

/-- Claim C9, counterexample: `get_list_items` returns only the accumulated
item list — the source's return type carries no status flag.  A crawl that
ends by exhaustion (`total = 2`, every page succeeds) and a crawl that ends
because the page fetch at offset 2 failed (`total = 3`) return the very same
value `[0, 1]`, so a caller cannot tell complete from partial completion
from the return value. -/
theorem get_list_items_no_status_flag_counterexample :
    get_list_items_result pageAll 2 1 0 = get_list_items_result pageFailAt2 3 1 0
    ∧ (get_list_items pageAll 2 1 0).done = true
    ∧ (get_list_items pageFailAt2 3 1 0).done = false := by
  decide

theorem crawl_go_fail_after {α : Type} (page : ℕ → Option (List α))
    (total count : ℕ) (hc : 0 < count) :
    ∀ (k : ℕ) (pages : ℕ → List α) (fuel current : ℕ) (acc : List α),
      total - current < fuel →
      (∀ i, i < k → page (current + i * count) = some (pages i) ∧ pages i ≠ []) →
      page (current + k * count) = none →
      current + k * count < total →
      (crawl_go page total count fuel current acc).items =
          acc ++ (List.range k).flatMap pages
        ∧ (crawl_go page total count fuel current acc).done = false := by
  intro k
  induction k with
  | zero =>
    intro pages fuel current acc hf hgood hfail hlt
    have hcur : current < total := by omega
    rcases fuel with _ | fuel
    · omega
    · have h0 : page current = none := by
        have := hfail
        rwa [Nat.zero_mul, Nat.add_zero] at this
      simp only [crawl_go]
      rw [if_pos hcur]
      simp [h0]
  | succ k ih =>
    intro pages fuel current acc hf hgood hfail hlt
    have hcur : current < total :=
      lt_of_le_of_lt (Nat.le_add_right _ _) hlt
    rcases fuel with _ | fuel
    · omega
    · obtain ⟨h0, hne0⟩ := hgood 0 (Nat.succ_pos k)
      rw [Nat.zero_mul, Nat.add_zero] at h0
      simp only [crawl_go]
      rw [if_pos hcur]
      rcases hl : pages 0 with _ | ⟨r, rs⟩
      · exact absurd hl hne0
      · rw [hl] at h0
        simp only [h0]
        have harith : ∀ i : ℕ, current + count + i * count = current + (i + 1) * count := by
          intro i
          rw [Nat.succ_mul]
          omega
        have ihh := ih (fun i => pages (i + 1)) fuel (current + count)
          (acc ++ r :: rs) (by omega)
          (fun i hi => by
            rw [harith i]
            exact hgood (i + 1) (by omega))
          (by rw [harith k]; exact hfail)
          (by rw [harith k]; exact hlt)
        refine ⟨?_, ihh.2⟩
        rw [ihh.1, List.range_succ_eq_map, List.flatMap_cons, List.flatMap_map]
        rw [← hl]
        simp [Function.comp_def, List.append_assoc]

/-- Claim C9, amended: the crawl controller returns only the accumulated item
list, with no status flag; a partially completed crawl still yields exactly
the items collected before the failing page fetch — when the first `k` pages
succeed with non-empty lists and the fetch at offset `start + k·count` fails
while still in range, the returned list is the concatenation of those `k`
pages (and the run ended by failure, not exhaustion) — but a caller cannot
distinguish this partial result from a completed crawl by the return value
alone. -/
theorem get_list_items_best_effort_results {α : Type} (page : ℕ → Option (List α))
    (total count start k : ℕ) (pages : ℕ → List α) (hc : 0 < count)
    (hgood : ∀ i, i < k → page (start + i * count) = some (pages i) ∧ pages i ≠ [])
    (hfail : page (start + k * count) = none)
    (hlt : start + k * count < total) :
    get_list_items_result page total count start = (List.range k).flatMap pages
    ∧ (get_list_items page total count start).done = false := by
  have ht0 : total ≠ 0 := by omega
  have h := crawl_go_fail_after page total count hc k pages (total + 1) start []
    (by omega) hgood hfail hlt
  unfold get_list_items_result get_list_items
  rw [if_neg ht0]
  simpa using h

theorem get_list_items_best_effort_results_witness :
    get_list_items_result pageFailAt2 3 1 0 = (List.range 2).flatMap (fun i => [i])
    ∧ (get_list_items pageFailAt2 3 1 0).done = false :=
  get_list_items_best_effort_results pageFailAt2 3 1 0 2 (fun i => [i]) (by decide)
    (by decide) (by decide) (by decide)

theorem exec_go_all_transient (transport : ℕ → HttpOutcome) (ua : List String)
    (jv ju bs : ℕ → ℚ) :
    ∀ (fuel attempt : ℕ) (rl : RateLimiter) (now : ℚ),
      (∀ i, attempt ≤ i → i < attempt + fuel →
        transientOutcome (transport i) = true) →
      (exec_go transport ua jv ju bs fuel attempt rl now).response = none
      ∧ (exec_go transport ua jv ju bs fuel attempt rl now).trace.length = fuel
      ∧ ∀ c ∈ (exec_go transport ua jv ju bs fuel attempt rl now).trace,
          c.success = false := by
  intro fuel
  induction fuel with
  | zero =>
    intro attempt rl now htr
    exact ⟨rfl, rfl, by intro c hc; simp [exec_go] at hc⟩
  | succ fuel ih =>
    intro attempt rl now htr
    have ht : transientOutcome (transport attempt) = true :=
      htr attempt le_rfl (by omega)
    have hsh : ∀ i, attempt + 1 ≤ i → i < attempt + 1 + fuel →
        transientOutcome (transport i) = true :=
      fun i h1 h2 => htr i (by omega) (by omega)
    simp only [exec_go]
    cases ho : transport attempt with
    | status code rt =>
      rw [ho] at ht
      simp only [transientOutcome, decide_eq_true_eq] at ht
      have h200 : ¬ code = 200 := by rcases ht with h | h | h | h | h <;> omega
      dsimp only
      rw [if_neg h200, if_pos ht]
      refine ⟨(ih _ _ _ hsh).1, ?_, ?_⟩
      · simp only [List.length_cons]
        rw [(ih _ _ _ hsh).2.1]
      · intro c hc
        rcases List.mem_cons.mp hc with rfl | hc
        · rfl
        · exact (ih _ _ _ hsh).2.2 c hc
    | network_failure el =>
      dsimp only
      refine ⟨(ih _ _ _ hsh).1, ?_, ?_⟩
      · simp only [List.length_cons]
        rw [(ih _ _ _ hsh).2.1]
      · intro c hc
        rcases List.mem_cons.mp hc with rfl | hc
        · rfl
        · exact (ih _ _ _ hsh).2.2 c hc

theorem exec_go_terminal_at (transport : ℕ → HttpOutcome) (ua : List String)
    (jv ju bs : ℕ → ℚ) :
    ∀ (k : ℕ) (fuel attempt : ℕ) (rl : RateLimiter) (now : ℚ), k < fuel →
      (∀ i, attempt ≤ i → i < attempt + k →
        transientOutcome (transport i) = true) →
      terminalOutcome (transport (attempt + k)) = true →
      (exec_go transport ua jv ju bs fuel attempt rl now).response = none
      ∧ (exec_go transport ua jv ju bs fuel attempt rl now).trace.length = k + 1
      ∧ ∀ c ∈ (exec_go transport ua jv ju bs fuel attempt rl now).trace,
          c.success = false := by
  intro k
  induction k with
  | zero =>
    intro fuel attempt rl now hkf htr hterm
    rcases fuel with _ | fuel
    · omega
    · rw [Nat.add_zero] at hterm
      simp only [exec_go]
      cases ho : transport attempt with
      | status code rt =>
        rw [ho] at hterm
        simp only [terminalOutcome, decide_eq_true_eq] at hterm
        push_neg at hterm
        obtain ⟨h200, h429, h500, h502, h503, h504⟩ := hterm
        dsimp only
        rw [if_neg h200, if_neg (by tauto)]
        refine ⟨rfl, rfl, ?_⟩
        intro c hc
        rcases List.mem_cons.mp hc with rfl | hc
        · rfl
        · simp at hc
      | network_failure el =>
        rw [ho] at hterm
        simp only [terminalOutcome] at hterm
        exact absurd hterm (by simp)
  | succ k ih =>
    intro fuel attempt rl now hkf htr hterm
    rcases fuel with _ | fuel
    · omega
    · have ht : transientOutcome (transport attempt) = true :=
        htr attempt le_rfl (by omega)
      have hsh : ∀ i, attempt + 1 ≤ i → i < attempt + 1 + k →
          transientOutcome (transport i) = true :=
        fun i h1 h2 => htr i (by omega) (by omega)
      have hterm' : terminalOutcome (transport (attempt + 1 + k)) = true := by
        have harith : attempt + 1 + k = attempt + (k + 1) := by omega
        rw [harith]
        exact hterm
      simp only [exec_go]
      cases ho : transport attempt with
      | status code rt =>
        rw [ho] at ht
        simp only [transientOutcome, decide_eq_true_eq] at ht
        have h200 : ¬ code = 200 := by rcases ht with h | h | h | h | h <;> omega
        dsimp only
        rw [if_neg h200, if_pos ht]
        refine ⟨(ih _ _ _ _ (by omega) hsh hterm').1, ?_, ?_⟩
        · simp only [List.length_cons]
          rw [(ih _ _ _ _ (by omega) hsh hterm').2.1]
        · intro c hc
          rcases List.mem_cons.mp hc with rfl | hc
          · rfl
          · exact (ih _ _ _ _ (by omega) hsh hterm').2.2 c hc
      | network_failure el =>
        dsimp only
        refine ⟨(ih _ _ _ _ (by omega) hsh hterm').1, ?_, ?_⟩
        · simp only [List.length_cons]
          rw [(ih _ _ _ _ (by omega) hsh hterm').2.1]
        · intro c hc
          rcases List.mem_cons.mp hc with rfl | hc
          · rfl
          · exact (ih _ _ _ _ (by omega) hsh hterm').2.2 c hc

theorem exec_go_success_after (transport : ℕ → HttpOutcome) (ua : List String)
    (jv ju bs : ℕ → ℚ) (rts : ℕ → ℚ) (rt200 : ℚ) :
    ∀ (m : ℕ) (fuel attempt : ℕ) (rl : RateLimiter) (now : ℚ), m < fuel →
      (∀ i, i < m → transport (attempt + i) = .status 503 (rts (attempt + i))) →
      transport (attempt + m) = .status 200 rt200 →
      (exec_go transport ua jv ju bs fuel attempt rl now).response =
          some (attempt + m)
      ∧ (exec_go transport ua jv ju bs fuel attempt rl now).trace.length = m + 1
      ∧ (∀ j, j < m →
          (exec_go transport ua jv ju bs fuel attempt rl now).trace.get? j =
            some ⟨false, some (rts (attempt + j)), some 503⟩)
      ∧ (exec_go transport ua jv ju bs fuel attempt rl now).trace.get? m =
          some ⟨true, some rt200, some 200⟩ := by
  intro m
  induction m with
  | zero =>
    intro fuel attempt rl now hmf h503 h200
    rcases fuel with _ | fuel
    · omega
    · rw [Nat.add_zero] at h200
      simp only [exec_go]
      rw [h200]
      dsimp only
      rw [if_pos rfl]
      exact ⟨rfl, rfl, fun j hj => absurd hj (Nat.not_lt_zero j), rfl⟩
  | succ m ih =>
    intro fuel attempt rl now hmf h503 h200
    rcases fuel with _ | fuel
    · omega
    · have h0 : transport attempt = .status 503 (rts attempt) := by
        have := h503 0 (Nat.succ_pos m)
        rwa [Nat.add_zero] at this
      have hsh : ∀ i, i < m →
          transport (attempt + 1 + i) = .status 503 (rts (attempt + 1 + i)) := by
        intro i hi
        have harith : attempt + 1 + i = attempt + (i + 1) := by omega
        rw [harith]
        exact h503 (i + 1) (by omega)
      have h200' : transport (attempt + 1 + m) = .status 200 rt200 := by
        have harith : attempt + 1 + m = attempt + (m + 1) := by omega
        rw [harith]
        exact h200
      simp only [exec_go]
      rw [h0]
      dsimp only
      rw [if_neg (by norm_num), if_pos (by norm_num)]
      obtain ⟨ih1, ih2, ih3, ih4⟩ := ih fuel (attempt + 1) _ _ (by omega) hsh h200'
      refine ⟨?_, ?_, ?_, ?_⟩
      · rw [ih1]
        congr 1
        omega
      · simp only [List.length_cons]
        rw [ih2]
      · intro j hj
        cases j with
        | zero =>
          simp only [List.get?_cons_zero, Nat.add_zero]
        | succ j =>
          simp only [List.get?_cons_succ]
          have hgot := ih3 j (Nat.lt_of_succ_lt_succ hj)
          have harith : attempt + 1 + j = attempt + (j + 1) := by omega
          rw [harith] at hgot
          exact hgot
      · simp only [List.get?_cons_succ]
        exact ih4

/-- Claim C1: the executor retries exactly the transient classes — 429, the
server errors 500/502/503/504, and network-level failures — looping while
`attempt ≤ max_retries`; when every one of the `max_retries + 1` attempts
yields a transient outcome it returns no response (the "max retries
exceeded" path) having issued exactly `max_retries + 1` attempts and made
exactly one (failed) ledger record per attempt; and when the first
non-transient outcome is a non-200 status at attempt `k` it returns no
response immediately after exactly `k + 1` attempts and `k + 1` failed
records, with no further attempt. -/
theorem make_request_retry_policy (transport : ℕ → HttpOutcome)
    (ua : List String) (jv ju bs : ℕ → ℚ) (rl : RateLimiter) (now : ℚ) :
    ((∀ i, i ≤ rl.max_retries → transientOutcome (transport i) = true) →
      (make_request_with_rate_limit transport ua jv ju bs rl now).response = none
      ∧ (make_request_with_rate_limit transport ua jv ju bs rl now).trace.length =
          rl.max_retries + 1
      ∧ ∀ c ∈ (make_request_with_rate_limit transport ua jv ju bs rl now).trace,
          c.success = false)
    ∧ (∀ k, k ≤ rl.max_retries →
        (∀ i, i < k → transientOutcome (transport i) = true) →
        terminalOutcome (transport k) = true →
        (make_request_with_rate_limit transport ua jv ju bs rl now).response = none
        ∧ (make_request_with_rate_limit transport ua jv ju bs rl now).trace.length =
            k + 1
        ∧ ∀ c ∈ (make_request_with_rate_limit transport ua jv ju bs rl now).trace,
            c.success = false) := by
  simp only [make_request_with_rate_limit]
  constructor
  · intro htr
    exact exec_go_all_transient transport ua jv ju bs (rl.max_retries + 1) 0 rl now
      (fun i h1 h2 => htr i (by omega))
  · intro k hk htr hterm
    refine exec_go_terminal_at transport ua jv ju bs k (rl.max_retries + 1) 0 rl now
      (by omega) (fun i h1 h2 => htr i (by omega)) ?_
    rw [Nat.zero_add]
    exact hterm

/-- Transport answering 503 on every attempt. -/
def transport503 : ℕ → HttpOutcome := fun _ => .status 503 1

theorem make_request_retry_policy_witness :
    (make_request_with_rate_limit transport503 [] (fun _ => 0) (fun _ => 0)
        (fun _ => 0) rlInit 0).response = none
    ∧ (make_request_with_rate_limit transport503 [] (fun _ => 0) (fun _ => 0)
        (fun _ => 0) rlInit 0).trace.length = rlInit.max_retries + 1 := by
  have h := (make_request_retry_policy transport503 [] (fun _ => 0) (fun _ => 0)
    (fun _ => 0) rlInit 0).1 (fun i _ => rfl)
  exact ⟨h.1, h.2.1⟩

/-- Claim C5: against a transport answering 503 on the first `N − 1` attempts
and 200 on the `N`-th (for `1 ≤ N ≤ max_retries + 1`), the executor issues
exactly `N` attempts making exactly `N` ledger records — the first `N − 1`
failed with status 503 and the last successful with status 200 — and
returns the successful response (that of attempt `N − 1`, 0-based). -/
theorem make_request_success_after_503s (transport : ℕ → HttpOutcome)
    (ua : List String) (jv ju bs : ℕ → ℚ) (rl : RateLimiter) (now : ℚ)
    (N : ℕ) (rts : ℕ → ℚ) (rt200 : ℚ) (hN1 : 1 ≤ N)
    (hN2 : N ≤ rl.max_retries + 1)
    (h503 : ∀ i, i < N - 1 → transport i = .status 503 (rts i))
    (h200 : transport (N - 1) = .status 200 rt200) :
    (make_request_with_rate_limit transport ua jv ju bs rl now).response =
        some (N - 1)
    ∧ (make_request_with_rate_limit transport ua jv ju bs rl now).trace.length = N
    ∧ (∀ j, j < N - 1 →
        (make_request_with_rate_limit transport ua jv ju bs rl now).trace.get? j =
          some ⟨false, some (rts j), some 503⟩)
    ∧ (make_request_with_rate_limit transport ua jv ju bs rl now).trace.get?
        (N - 1) = some ⟨true, some rt200, some 200⟩ := by
  have h := exec_go_success_after transport ua jv ju bs rts rt200 (N - 1)
    (rl.max_retries + 1) 0 rl now (by omega)
    (fun i hi => by rw [Nat.zero_add]; exact h503 i hi)
    (by rw [Nat.zero_add]; exact h200)
  simp only [make_request_with_rate_limit]
  obtain ⟨h1, h2, h3, h4⟩ := h
  rw [Nat.zero_add] at h1
  refine ⟨h1, by rw [h2]; omega, ?_, h4⟩
  intro j hj
  have hg := h3 j hj
  rwa [Nat.zero_add] at hg

/-- Transport answering 503 on attempts 0 and 1, then 200 on attempt 2. -/
def transportC5 : ℕ → HttpOutcome :=
  fun i => if i < 2 then .status 503 1 else .status 200 1

theorem make_request_success_after_503s_witness :
    (make_request_with_rate_limit transportC5 [] (fun _ => 0) (fun _ => 0)
        (fun _ => 0) rlInit 0).response = some 2
    ∧ (make_request_with_rate_limit transportC5 [] (fun _ => 0) (fun _ => 0)
        (fun _ => 0) rlInit 0).trace.length = 3 := by
  have h := make_request_success_after_503s transportC5 [] (fun _ => 0)
    (fun _ => 0) (fun _ => 0) rlInit 0 3 (fun _ => 1) 1 (by omega)
    (by norm_num [rlInit])
    (fun i hi => by
      have hi2 : i < 2 := by omega
      simp [transportC5, hi2])
    (by norm_num [transportC5])
  exact ⟨h.1, h.2.1⟩

end SteamScraper
